import Mathlib

/-!
Verification model of the TodoService persistence and mutation core
(`src/services/todoService.js`).

The service holds an ordered list of todo records, a numeric id counter
(`nextId`) and a backing JSON file.  Every mutating operation computes the
next todo sequence, writes it to disk together with `nextId`
(`#saveAtomically`), and only on a successful write replaces the in-memory
sequence.  We model the disk as the parsed content of the backing file and
the possibility of a write failure as an explicit `writeOk : Bool` argument
threaded into each operation: `writeOk = true` means the `writeFile` call
succeeds, `writeOk = false` means it throws.  JavaScript `{ok: false,
reason}` results and thrown exceptions are both modelled as `Except.error`
values with distinct error codes.
-/

namespace TodoModel

/-- Decimal digit characters of a natural number, most significant first.
This models how JavaScript renders a nonnegative integer inside a template
string (`String(n)` / `todo-${n}` produce the decimal digits of `n`). -/
def natDecChars (n : Nat) : List Char :=
  if _h : n < 10 then [Nat.digitChar n]
  else natDecChars (n / 10) ++ [Nat.digitChar (n % 10)]
decreasing_by
  exact Nat.div_lt_self (by omega) (by omega)

/-- Decimal rendering of an integer, as JavaScript renders an integral
number in a template string: digits for nonnegative values, a leading
minus sign for negative values. -/
def intDec : Int → String
  | .ofNat m => ⟨natDecChars m⟩
  | .negSucc m => ⟨'-' :: natDecChars (m + 1)⟩

/-- Identifier minted for counter value `n`: the source computes
`` `todo-${this.nextId++}` ``. -/
def mkId (n : Int) : String := "todo-" ++ intDec n

/-- A todo record: `{ id, title, completed }`. -/
structure Todo where
  id : String
  title : String
  completed : Bool
deriving DecidableEq, Repr, Inhabited

/-- Parsed content of the backing JSON file as written by the service:
`JSON.stringify({ todos: newTodos, nextId: this.nextId })`. -/
structure SavedFile where
  todos : List Todo
  nextId : Int
deriving DecidableEq, Repr

/-- In-memory state of a `TodoService` instance plus the backing file.
`disk` is the last successfully written file payload (`none` when the
model leaves the initial file content unspecified); the `dataFile` path
itself is irrelevant to the behaviour and omitted. -/
structure TodoService where
  todos : List Todo
  nextId : Int
  disk : Option SavedFile
deriving DecidableEq, Repr

/-- Failure outcomes.  `notFound` and `invalidIndex` model the
`{ ok: false, reason: ... }` return values; `writeFailed` models an
exception thrown by `writeFile` inside `#saveAtomically` and propagated to
the caller; `fatal` models an error rethrown by `TodoService.create`. -/
inductive Err where
  | notFound
  | invalidIndex
  | writeFailed
  | fatal
deriving DecidableEq, Repr

namespace TodoService

/-- Model of `#saveAtomically(newTodos)`: serialize
`{ todos: newTodos, nextId: this.nextId }`, write it to the backing file,
and only after a successful write assign `this.todos = newTodos`.  When
the write throws (`writeOk = false`) the exception propagates and the
state is unchanged. -/
def saveAtomically (writeOk : Bool) (newTodos : List Todo) (st : TodoService) :
    Except Err Unit × TodoService :=
  if writeOk then
    (.ok (), { st with todos := newTodos, disk := some ⟨newTodos, st.nextId⟩ })
  else
    (.error .writeFailed, st)

/-- Model of `add(title)`.  Note that `this.nextId++` happens while the
new record is constructed, before the disk write is attempted. -/
def add (writeOk : Bool) (title : String) (st : TodoService) :
    Except Err Todo × TodoService :=
  let todo : Todo := ⟨mkId st.nextId, title, false⟩
  let st1 := { st with nextId := st.nextId + 1 }
  let newTodos := st1.todos ++ [todo]
  match saveAtomically writeOk newTodos st1 with
  | (.ok _, st2) => (.ok todo, st2)
  | (.error e, st2) => (.error e, st2)

/-- Model of `completeById(id)`. -/
def completeById (writeOk : Bool) (id : String) (st : TodoService) :
    Except Err Todo × TodoService :=
  match st.todos.find? (fun task => task.id == id) with
  | none => (.error .notFound, st)
  | some found =>
    if found.completed then
      (.ok found, st)
    else
      let newTodos := st.todos.map (fun task =>
        if task.id == id then { task with completed := true } else task)
      match saveAtomically writeOk newTodos st with
      | (.ok _, st2) =>
        match st2.todos.find? (fun task => task.id == id) with
        | some updated => (.ok updated, st2)
        | none => (.error .notFound, st2)
        -- the `none` branch is unreachable: the map preserves every id
      | (.error e, st2) => (.error e, st2)

/-- Model of `completeByIndex(index)` with a 1-based position. -/
def completeByIndex (writeOk : Bool) (index : Int) (st : TodoService) :
    Except Err (Todo × Int) × TodoService :=
  if index < 1 ∨ (st.todos.length : Int) < index then
    (.error .invalidIndex, st)
  else
    match st.todos.get? (index - 1).toNat with
    | none => (.error .invalidIndex, st)
      -- unreachable: the guard above ensures the position is in range
    | some existing =>
      if existing.completed then
        (.ok (existing, index), st)
      else
        let newTodos := st.todos.mapIdx (fun i task =>
          if (i : Int) == index - 1 then { task with completed := true } else task)
        match saveAtomically writeOk newTodos st with
        | (.ok _, st2) =>
          match st2.todos.get? (index - 1).toNat with
          | some updated => (.ok (updated, index), st2)
          | none => (.error .invalidIndex, st2)
            -- unreachable: the map preserves the length
        | (.error e, st2) => (.error e, st2)

/-- Model of JavaScript `haystack.includes(needle)`: `needle` occurs as a
contiguous substring of `haystack`. -/
def jsIncludes (haystack needle : String) : Bool :=
  decide (needle.data <:+: haystack.data)

/-- Model of JavaScript `toLowerCase`, applied to each character.  (For
the ordinary text the service handles this agrees with full Unicode
lower-casing; `Char.toLower` is used characterwise so that the function
evaluates by kernel reduction.) -/
def jsToLower (s : String) : String := ⟨s.data.map Char.toLower⟩

/-- The search predicate of `completeByTitle`: the task is not completed
and its lower-cased title contains the lower-cased query. -/
def titleMatch (query : String) (task : Todo) : Bool :=
  !task.completed && jsIncludes (jsToLower task.title) (jsToLower query)

/-- Model of `completeByTitle(searchTitle)`. -/
def completeByTitle (writeOk : Bool) (searchTitle : String) (st : TodoService) :
    Except Err Todo × TodoService :=
  match st.todos.find? (titleMatch searchTitle) with
  | none => (.error .notFound, st)
  | some found =>
    let newTodos := st.todos.map (fun task =>
      if task.id == found.id then { task with completed := true } else task)
    match saveAtomically writeOk newTodos st with
    | (.ok _, st2) =>
      match st2.todos.find? (fun task => task.id == found.id) with
      | some updated => (.ok updated, st2)
      | none => (.error .notFound, st2)
        -- unreachable: the map preserves every id
    | (.error e, st2) => (.error e, st2)

/-- Model of `deleteById(id)`. -/
def deleteById (writeOk : Bool) (id : String) (st : TodoService) :
    Except Err Todo × TodoService :=
  match st.todos.find? (fun task => task.id == id) with
  | none => (.error .notFound, st)
  | some todo =>
    let newTodos := st.todos.filter (fun task => !(task.id == id))
    match saveAtomically writeOk newTodos st with
    | (.ok _, st2) => (.ok todo, st2)
    | (.error e, st2) => (.error e, st2)

/-- Model of `deleteCompleted()`; returns the removed records. -/
def deleteCompleted (writeOk : Bool) (st : TodoService) :
    Except Err (List Todo) × TodoService :=
  let completed := st.todos.filter (fun task => task.completed)
  if completed.isEmpty then
    (.ok [], st)
  else
    let newTodos := st.todos.filter (fun task => !task.completed)
    match saveAtomically writeOk newTodos st with
    | (.ok _, st2) => (.ok completed, st2)
    | (.error e, st2) => (.error e, st2)

/-- Model of `save()`: `#saveAtomically(this.todos)`. -/
def save (writeOk : Bool) (st : TodoService) : Except Err Unit × TodoService :=
  saveAtomically writeOk st.todos st

end TodoService

/-- Result of applying `JSON.parse` to the file contents inside
`TodoService.create`.  `parseError` is a thrown `SyntaxError` (the
contents are not valid JSON).  `value todos nextId` is any successfully
parsed value: `todos = some l` exactly when `Array.isArray(parsed.todos)`
holds (with the array elements read as todo records), and
`nextId = some n` exactly when `Number.isInteger(parsed.nextId)` holds. -/
inductive ParsedJson where
  | parseError
  | value (todos : Option (List Todo)) (nextId : Option Int)
deriving DecidableEq, Repr

/-- Outcome of the `readFile` call inside `TodoService.create`:
the file is absent (`ENOENT`), some other filesystem error occurred, or
the contents were read and handed to `JSON.parse`. -/
inductive ReadResult where
  | enoent
  | fsError
  | ok (parsed : ParsedJson)
deriving DecidableEq, Repr

/-- Model of `TodoService.create(dataFile)`, returning the initial
`(todos, nextId)` pair of the constructed service.  A `JSON.parse` failure
is caught by the same `catch` block as a filesystem error; since a
`SyntaxError` has no `code` property, the `error?.code !== "ENOENT"` test
succeeds and the error is rethrown, exactly like a non-`ENOENT`
filesystem error.  On `ENOENT` the service starts empty with
`nextId = 1` (and immediately persists that state). -/
def TodoService.create (r : ReadResult) : Except Err (List Todo × Int) :=
  match r with
  | .enoent => .ok ([], 1)
  | .fsError => .error .fatal
  | .ok .parseError => .error .fatal
  | .ok (.value todosField nextIdField) =>
    let todos := todosField.getD []
    let nextId := nextIdField.getD ((todos.length : Int) + 1)
    .ok (todos, nextId)

/-- Reading back the backing file written by `#saveAtomically`.  The file
holds `JSON.stringify({ todos, nextId })` for a list of well-formed todo
records and an integer `nextId`, so `JSON.parse` succeeds, `todos` is an
array and `nextId` is an integer: JSON round-trips this shape exactly. -/
def reread (f : SavedFile) : ReadResult :=
  .ok (.value (some f.todos) (some f.nextId))

/-- Run a sequence of `add` calls (all with successful writes), returning
the minted records in call order together with the final state. -/
def addAll : List String → TodoService → List Todo × TodoService
  | [], st => ([], st)
  | t :: rest, st =>
    match TodoService.add true t st with
    | (.ok todo, st1) => (todo :: (addAll rest st1).1, (addAll rest st1).2)
    | (.error _, st1) => ([], st1)
      -- unreachable: with a successful write, `add` always succeeds

/-! ### Properties of the decimal rendering used to mint identifiers -/

theorem natDecChars_lt (n : Nat) (h : n < 10) : natDecChars n = [Nat.digitChar n] := by
  rw [natDecChars]
  simp [h]

theorem natDecChars_ge (n : Nat) (h : ¬ n < 10) :
    natDecChars n = natDecChars (n / 10) ++ [Nat.digitChar (n % 10)] := by
  rw [natDecChars]
  simp [h]

theorem natDecChars_ne_nil (n : Nat) : natDecChars n ≠ [] := by
  by_cases h : n < 10
  · rw [natDecChars_lt n h]
    simp
  · rw [natDecChars_ge n h]
    simp

theorem digitChar_fin_inj : ∀ a b : Fin 10,
    Nat.digitChar a.val = Nat.digitChar b.val → a = b := by decide

theorem digitChar_fin_ne_dash : ∀ a : Fin 10, Nat.digitChar a.val ≠ '-' := by decide

theorem natDecChars_head?_ne_dash (n : Nat) : (natDecChars n).head? ≠ some '-' := by
  induction n using Nat.strong_induction_on with
  | _ n ih =>
    by_cases h : n < 10
    · rw [natDecChars_lt n h]
      simpa using digitChar_fin_ne_dash ⟨n, h⟩
    · rw [natDecChars_ge n h]
      obtain ⟨c, t, hct⟩ := List.exists_cons_of_ne_nil (natDecChars_ne_nil (n / 10))
      have hc := ih (n / 10) (Nat.div_lt_self (by omega) (by omega))
      rw [hct] at hc ⊢
      simpa using hc

theorem natDecChars_inj : ∀ m n : Nat, natDecChars m = natDecChars n → m = n := by
  intro m
  induction m using Nat.strong_induction_on with
  | _ m ih =>
    intro n h
    by_cases hm : m < 10 <;> by_cases hn : n < 10
    · rw [natDecChars_lt m hm, natDecChars_lt n hn] at h
      have := digitChar_fin_inj ⟨m, hm⟩ ⟨n, hn⟩ (by simpa using h)
      simpa using congrArg Fin.val this
    · rw [natDecChars_lt m hm, natDecChars_ge n hn] at h
      have hlen := congrArg List.length h
      have h1 : 0 < (natDecChars (n / 10)).length :=
        List.length_pos.mpr (natDecChars_ne_nil _)
      simp only [List.length_singleton, List.length_append, List.length_cons,
        List.length_nil] at hlen
      omega
    · rw [natDecChars_ge m hm, natDecChars_lt n hn] at h
      have hlen := congrArg List.length h
      have h1 : 0 < (natDecChars (m / 10)).length :=
        List.length_pos.mpr (natDecChars_ne_nil _)
      simp only [List.length_singleton, List.length_append, List.length_cons,
        List.length_nil] at hlen
      omega
    · rw [natDecChars_ge m hm, natDecChars_ge n hn] at h
      obtain ⟨h1, h2⟩ := List.append_inj' h (by simp)
      have hdiv : m / 10 = n / 10 :=
        ih (m / 10) (Nat.div_lt_self (by omega) (by omega)) _ h1
      have hmod : m % 10 = n % 10 := by
        have := digitChar_fin_inj ⟨m % 10, Nat.mod_lt _ (by omega)⟩
          ⟨n % 10, Nat.mod_lt _ (by omega)⟩ (by simpa using h2)
        simpa using congrArg Fin.val this
      omega

theorem intDec_inj : Function.Injective intDec := by
  intro a b h
  cases a with
  | ofNat m =>
    cases b with
    | ofNat n =>
      simp only [intDec] at h
      have h' : natDecChars m = natDecChars n := congrArg String.data h
      rw [natDecChars_inj m n h']
    | negSucc n =>
      simp only [intDec] at h
      have h' : natDecChars m = '-' :: natDecChars (n + 1) := congrArg String.data h
      have := natDecChars_head?_ne_dash m
      rw [h'] at this
      simp at this
  | negSucc m =>
    cases b with
    | ofNat n =>
      simp only [intDec] at h
      have h' : '-' :: natDecChars (m + 1) = natDecChars n := congrArg String.data h
      have := natDecChars_head?_ne_dash n
      rw [← h'] at this
      simp at this
    | negSucc n =>
      simp only [intDec] at h
      have h' : '-' :: natDecChars (m + 1) = '-' :: natDecChars (n + 1) :=
        congrArg String.data h
      have h'' : natDecChars (m + 1) = natDecChars (n + 1) := by
        injection h'
      have hmn : m + 1 = n + 1 := natDecChars_inj _ _ h''
      have : m = n := by omega
      rw [this]

theorem mkId_injective : Function.Injective mkId := by
  intro a b h
  apply intDec_inj
  have hd : ("todo-" : String).data ++ (intDec a).data
      = ("todo-" : String).data ++ (intDec b).data := by
    have h2 := congrArg String.data h
    simpa [mkId, String.data_append] using h2
  have h3 : (intDec a).data = (intDec b).data := List.append_cancel_left hd
  exact String.ext h3

/-! ### Claim C2 -/

/-- Claim C2 counterexample: a file whose contents are not valid JSON does
not yield a store with an empty todos sequence — `JSON.parse` throws
inside the `try` block, the thrown `SyntaxError` has no `code` property,
so the `catch` rethrows it and initialization fails fatally. -/
theorem c2_counterexample :
    TodoService.create (.ok .parseError) = .error .fatal := rfl

/-- Claim C2 (amended): when the file contents parse as JSON, a
non-array `todos` field is replaced by the empty list and a missing or
non-integer `nextId` defaults to `len(todos) + 1`; an absent file yields
the empty store with `nextId = 1`; but contents that are not valid JSON
propagate as a fatal initialization error, exactly like a filesystem
error other than file-not-found. -/
theorem c2_create_defaults (ts : List Todo) (n : Int) :
    TodoService.create .enoent = .ok ([], 1)
    ∧ TodoService.create .fsError = .error .fatal
    ∧ TodoService.create (.ok .parseError) = .error .fatal
    ∧ TodoService.create (.ok (.value none none)) = .ok ([], 1)
    ∧ TodoService.create (.ok (.value none (some n))) = .ok ([], n)
    ∧ TodoService.create (.ok (.value (some ts) none))
        = .ok (ts, (ts.length : Int) + 1)
    ∧ TodoService.create (.ok (.value (some ts) (some n))) = .ok (ts, n) :=
  ⟨rfl, rfl, rfl, rfl, rfl, rfl, rfl⟩

/-! ### Claim C9 -/

/-- Claim C9: serializing the store state via the save path and reloading
via `create` on the written file yields an identical todo sequence and an
identical `nextId`. -/
theorem c9_round_trip (st : TodoService) :
    TodoService.save true st
        = (.ok (), { st with disk := some ⟨st.todos, st.nextId⟩ })
    ∧ TodoService.create (reread ⟨st.todos, st.nextId⟩)
        = .ok (st.todos, st.nextId) :=
  ⟨rfl, rfl⟩

/-! ### Claim C10 -/

/-- Claim C10: `add` preserves id uniqueness only under the precondition
that `nextId` exceeds the numeric suffix of every already-present id of
the minted form; and `create` defaults a missing `nextId` to
`todos.length + 1` without inspecting the loaded ids, so a valid loaded
state exists (a file whose single todo has id "todo-2" and no `nextId`
field) from which the next `add` returns an id equal to one already in
the sequence. -/
theorem c10_add_uniqueness_precondition :
    (∀ (st : TodoService) (title : String),
      (st.todos.map Todo.id).Nodup →
      (∀ t ∈ st.todos, ∀ n : Int, t.id = mkId n → n < st.nextId) →
      (((TodoService.add true title st).2).todos.map Todo.id).Nodup)
    ∧ (TodoService.create (.ok (.value (some [⟨"todo-2", "existing", false⟩]) none))
        = .ok ([⟨"todo-2", "existing", false⟩], 2)
      ∧ mkId 2 = "todo-2"
      ∧ (TodoService.add true "another"
            ⟨[⟨"todo-2", "existing", false⟩], 2, none⟩).1
          = .ok ⟨"todo-2", "another", false⟩
      ∧ ¬ (((TodoService.add true "another"
            ⟨[⟨"todo-2", "existing", false⟩], 2, none⟩).2).todos.map Todo.id).Nodup) := by
  have hmk : mkId 2 = "todo-2" := by
    have h2 : natDecChars 2 = ['2'] := by
      rw [natDecChars_lt 2 (by omega)]
      decide
    show ("todo-" ++ intDec (Int.ofNat 2) : String) = "todo-2"
    simp only [intDec, h2]
    rfl
  refine ⟨?_, rfl, hmk, ?_, ?_⟩
  · intro st title hnd hlt
    have hadd : ((TodoService.add true title st).2).todos
        = st.todos ++ [⟨mkId st.nextId, title, false⟩] := rfl
    rw [hadd, List.map_append, List.nodup_append]
    refine ⟨hnd, by simp, ?_⟩
    intro x hx hmem
    simp only [List.map_cons, List.map_nil, List.mem_singleton] at hmem
    subst hmem
    obtain ⟨t, ht, hid⟩ := List.mem_map.mp hx
    exact absurd (hlt t ht st.nextId hid) (lt_irrefl _)
  · show Except.ok (⟨mkId 2, "another", false⟩ : Todo) = _
    rw [hmk]
  · show ¬ (([⟨"todo-2", "existing", false⟩,
        (⟨mkId 2, "another", false⟩ : Todo)].map Todo.id).Nodup)
    rw [hmk]
    decide

/-- Claim C10 witness: the uniqueness-preservation direction applied to a
concrete store whose todo list is empty and whose counter is 5. -/
theorem c10_witness :
    (((TodoService.add true "x" ⟨[], 5, none⟩).2).todos.map Todo.id).Nodup :=
  c10_add_uniqueness_precondition.1 ⟨[], 5, none⟩ "x" (by simp)
    (by intro t ht; simp at ht)

/-! ### Claim C3 -/

theorem add_true_eq (title : String) (st : TodoService) :
    TodoService.add true title st =
      (.ok ⟨mkId st.nextId, title, false⟩,
       ⟨st.todos ++ [⟨mkId st.nextId, title, false⟩], st.nextId + 1,
        some ⟨st.todos ++ [⟨mkId st.nextId, title, false⟩], st.nextId + 1⟩⟩) := rfl

theorem addAll_cons (t : String) (rest : List String) (st : TodoService) :
    addAll (t :: rest) st =
      ((⟨mkId st.nextId, t, false⟩ : Todo) ::
         (addAll rest ⟨st.todos ++ [⟨mkId st.nextId, t, false⟩], st.nextId + 1,
            some ⟨st.todos ++ [⟨mkId st.nextId, t, false⟩], st.nextId + 1⟩⟩).1,
       (addAll rest ⟨st.todos ++ [⟨mkId st.nextId, t, false⟩], st.nextId + 1,
          some ⟨st.todos ++ [⟨mkId st.nextId, t, false⟩], st.nextId + 1⟩⟩).2) := rfl

theorem addAll_ids_nextId (titles : List String) (st : TodoService) :
    (addAll titles st).1.map Todo.id
        = (List.range titles.length).map (fun k : Nat => mkId (st.nextId + (k : Int)))
    ∧ ((addAll titles st).2).nextId = st.nextId + titles.length := by
  induction titles generalizing st with
  | nil => simp [addAll]
  | cons t rest ih =>
    rw [addAll_cons]
    obtain ⟨ih1, ih2⟩ := ih ⟨st.todos ++ [⟨mkId st.nextId, t, false⟩], st.nextId + 1,
      some ⟨st.todos ++ [⟨mkId st.nextId, t, false⟩], st.nextId + 1⟩⟩
    constructor
    · simp only [List.map_cons, ih1, List.length_cons, List.range_succ_eq_map,
        List.map_map]
      congr 1
      · congr 1
        omega
      · apply List.map_congr_left
        intro k _
        simp only [Function.comp_apply]
        congr 1
        push_cast
        ring
    · simp only [ih2, List.length_cons]
      push_cast
      ring

/-- Claim C3: every record returned by a sequence of `add` calls carries
the id `todo-N` for the counter value `N` at its creation time, the
returned ids are pairwise distinct, their numeric suffixes are strictly
increasing in call order, and after each prefix of the sequence `nextId`
exceeds the numeric suffix of every id minted so far. -/
theorem c3_add_id_uniqueness (titles : List String) (st : TodoService) :
    ((addAll titles st).1.map Todo.id
        = (List.range titles.length).map (fun k : Nat => mkId (st.nextId + (k : Int))))
    ∧ ((addAll titles st).1.map Todo.id).Nodup
    ∧ List.Pairwise (· < ·)
        ((List.range titles.length).map (fun k : Nat => st.nextId + (k : Int)))
    ∧ ((addAll titles st).2).nextId = st.nextId + titles.length
    ∧ (∀ k j : Nat, j < (titles.take k).length →
        st.nextId + (j : Int) < ((addAll (titles.take k) st).2).nextId) := by
  obtain ⟨h1, h2⟩ := addAll_ids_nextId titles st
  refine ⟨h1, ?_, ?_, h2, ?_⟩
  · rw [h1]
    refine List.Nodup.map ?_ (List.nodup_range _)
    intro a b hab
    have := mkId_injective hab
    omega
  · refine List.Pairwise.map _ ?_ (List.pairwise_lt_range _)
    intro a b hab
    omega
  · intro k j hj
    obtain ⟨_, hk2⟩ := addAll_ids_nextId (titles.take k) st
    rw [hk2]
    omega

/-- Claim C3 witness: the prefix conclusion of `c3_add_id_uniqueness`
evaluated on a concrete two-element `add` sequence. -/
theorem c3_witness :
    (1 : Int) + (0 : Nat) < ((addAll (["a", "b"].take 1) ⟨[], 1, none⟩).2).nextId :=
  (c3_add_id_uniqueness ["a", "b"] ⟨[], 1, none⟩).2.2.2.2 1 0 (by decide)

/-! ### Claim C1 -/

theorem completeById_false_eq (id : String) (st : TodoService) :
    TodoService.completeById false id st =
      (match st.todos.find? (fun task => task.id == id) with
       | none => (.error .notFound, st)
       | some found =>
         if found.completed then (.ok found, st)
         else (.error .writeFailed, st)) := by
  unfold TodoService.completeById
  cases st.todos.find? (fun task => task.id == id) with
  | none => rfl
  | some found =>
    by_cases hc : found.completed
    · simp [hc]
    · simp [hc, TodoService.saveAtomically]

theorem completeByIndex_false_eq (i : Int) (st : TodoService) :
    TodoService.completeByIndex false i st =
      (if i < 1 ∨ (st.todos.length : Int) < i then (.error .invalidIndex, st)
       else match st.todos.get? (i - 1).toNat with
       | none => (.error .invalidIndex, st)
       | some existing =>
         if existing.completed then (.ok (existing, i), st)
         else (.error .writeFailed, st)) := by
  unfold TodoService.completeByIndex
  by_cases hg : i < 1 ∨ (st.todos.length : Int) < i
  · simp [hg]
  · simp only [hg, if_false]
    cases st.todos.get? (i - 1).toNat with
    | none => rfl
    | some existing =>
      by_cases hc : existing.completed
      · simp [hc]
      · simp [hc, TodoService.saveAtomically]

theorem completeByTitle_false_eq (q : String) (st : TodoService) :
    TodoService.completeByTitle false q st =
      (match st.todos.find? (TodoService.titleMatch q) with
       | none => (.error .notFound, st)
       | some _ => (.error .writeFailed, st)) := by
  cases hf : st.todos.find? (TodoService.titleMatch q) <;>
    simp [TodoService.completeByTitle, hf, TodoService.saveAtomically]

theorem deleteById_false_eq (id : String) (st : TodoService) :
    TodoService.deleteById false id st =
      (match st.todos.find? (fun task => task.id == id) with
       | none => (.error .notFound, st)
       | some _ => (.error .writeFailed, st)) := by
  unfold TodoService.deleteById
  cases st.todos.find? (fun task => task.id == id) with
  | none => rfl
  | some todo => simp [TodoService.saveAtomically]

theorem deleteCompleted_false_eq (st : TodoService) :
    TodoService.deleteCompleted false st =
      (if (st.todos.filter (fun task => task.completed)).isEmpty then (.ok [], st)
       else (.error .writeFailed, st)) := by
  unfold TodoService.deleteCompleted
  by_cases he : (st.todos.filter (fun task => task.completed)).isEmpty
  · simp [he]
  · simp [he, TodoService.saveAtomically]

/-- Claim C1 counterexample: after a failed `add` the in-memory state is
not left at its prior value — `this.nextId++` has already happened when
the write is attempted, so the counter is advanced even though the
operation fails. -/
theorem c1_counterexample :
    (TodoService.add false "milk" ⟨[], 1, none⟩).2 ≠ (⟨[], 1, none⟩ : TodoService) := by
  intro h
  have h2 := congrArg TodoService.nextId h
  simp [TodoService.add, TodoService.saveAtomically] at h2

/-- Claim C1 (amended): when the backing-file write fails, every mutating
operation fails, the todos sequence and the disk are left at their prior
values (so `list()` reflects exactly the state as of the last successful
mutation), and no operation reports success for a mutation whose write
failed — an operation that still succeeds under a failing disk is one
that never attempted a write and equals the successful-write run.  The
one deviation from the claim as stated: a failed `add` has already
incremented `nextId`, so the full in-memory state is not at its prior
value. -/
theorem c1_write_failure_atomicity (st : TodoService) (title id q : String) (i : Int) :
    (TodoService.add false title st
        = (.error .writeFailed, { st with nextId := st.nextId + 1 }))
    ∧ ((TodoService.completeById false id st).2 = st
        ∧ ∀ t, (TodoService.completeById false id st).1 = .ok t →
            TodoService.completeById true id st = (.ok t, st))
    ∧ ((TodoService.completeByIndex false i st).2 = st
        ∧ ∀ p, (TodoService.completeByIndex false i st).1 = .ok p →
            TodoService.completeByIndex true i st = (.ok p, st))
    ∧ ((TodoService.completeByTitle false q st).2 = st
        ∧ ((TodoService.completeByTitle false q st).1 = .error .notFound
            ∨ (TodoService.completeByTitle false q st).1 = .error .writeFailed))
    ∧ ((TodoService.deleteById false id st).2 = st
        ∧ ((TodoService.deleteById false id st).1 = .error .notFound
            ∨ (TodoService.deleteById false id st).1 = .error .writeFailed))
    ∧ ((TodoService.deleteCompleted false st).2 = st
        ∧ ∀ l, (TodoService.deleteCompleted false st).1 = .ok l →
            TodoService.deleteCompleted true st = (.ok l, st)) := by
  refine ⟨rfl, ⟨?_, ?_⟩, ⟨?_, ?_⟩, ⟨?_, ?_⟩, ⟨?_, ?_⟩, ⟨?_, ?_⟩⟩
  · rw [completeById_false_eq]
    cases st.todos.find? (fun task => task.id == id) with
    | none => rfl
    | some found =>
      by_cases hc : found.completed
      · simp [hc]
      · simp [hc]
  · intro t ht
    rw [completeById_false_eq] at ht
    cases hf : st.todos.find? (fun task => task.id == id) with
    | none => rw [hf] at ht; simp at ht
    | some found =>
      rw [hf] at ht
      by_cases hc : found.completed
      · simp only [hc, if_true] at ht
        obtain rfl : found = t := by injection ht
        unfold TodoService.completeById
        rw [hf]
        simp [hc]
      · simp [hc] at ht
  · rw [completeByIndex_false_eq]
    by_cases hg : i < 1 ∨ (st.todos.length : Int) < i
    · simp [hg]
    · simp only [hg, if_false]
      cases st.todos.get? (i - 1).toNat with
      | none => rfl
      | some existing =>
        by_cases hc : existing.completed
        · simp [hc]
        · simp [hc]
  · intro p hp
    rw [completeByIndex_false_eq] at hp
    by_cases hg : i < 1 ∨ (st.todos.length : Int) < i
    · rw [if_pos hg] at hp; simp at hp
    · rw [if_neg hg] at hp
      cases hf : st.todos.get? (i - 1).toNat with
      | none => rw [hf] at hp; simp at hp
      | some existing =>
        rw [hf] at hp
        by_cases hc : existing.completed
        · simp only [hc, if_true] at hp
          obtain rfl : (existing, i) = p := by injection hp
          unfold TodoService.completeByIndex
          rw [if_neg hg, hf]
          simp [hc]
        · simp [hc] at hp
  · rw [completeByTitle_false_eq]
    cases hf : st.todos.find? (TodoService.titleMatch q) <;> simp [hf]
  · rw [completeByTitle_false_eq]
    cases hf : st.todos.find? (TodoService.titleMatch q)
    · exact Or.inl (by simp [hf])
    · exact Or.inr (by simp [hf])
  · rw [deleteById_false_eq]
    cases st.todos.find? (fun task => task.id == id) with
    | none => rfl
    | some todo => rfl
  · rw [deleteById_false_eq]
    cases st.todos.find? (fun task => task.id == id) with
    | none => exact Or.inl rfl
    | some todo => exact Or.inr rfl
  · rw [deleteCompleted_false_eq]
    by_cases he : (st.todos.filter (fun task => task.completed)).isEmpty
    · simp [he]
    · simp [he]
  · intro l hl
    rw [deleteCompleted_false_eq] at hl
    by_cases he : (st.todos.filter (fun task => task.completed)).isEmpty
    · rw [if_pos he] at hl
      obtain rfl : ([] : List Todo) = l := by injection hl
      unfold TodoService.deleteCompleted
      rw [if_pos he]
    · rw [if_neg he] at hl
      simp at hl

/-- Claim C1 witness: the no-write success cases coincide with the
successful-write runs on concrete stores. -/
theorem c1_witness :
    TodoService.completeById true "todo-1" ⟨[⟨"todo-1", "a", true⟩], 2, none⟩
        = (.ok ⟨"todo-1", "a", true⟩, ⟨[⟨"todo-1", "a", true⟩], 2, none⟩)
    ∧ TodoService.completeByIndex true 1 ⟨[⟨"todo-1", "a", true⟩], 2, none⟩
        = (.ok (⟨"todo-1", "a", true⟩, 1), ⟨[⟨"todo-1", "a", true⟩], 2, none⟩)
    ∧ TodoService.deleteCompleted true ⟨[], 7, none⟩ = (.ok [], ⟨[], 7, none⟩) := by
  refine ⟨?_, ?_, ?_⟩
  · exact (c1_write_failure_atomicity ⟨[⟨"todo-1", "a", true⟩], 2, none⟩ "t" "todo-1" "q" 1).2.1.2
      ⟨"todo-1", "a", true⟩ (by rfl)
  · exact (c1_write_failure_atomicity ⟨[⟨"todo-1", "a", true⟩], 2, none⟩ "t" "todo-1" "q" 1).2.2.1.2
      (⟨"todo-1", "a", true⟩, 1) (by rfl)
  · exact (c1_write_failure_atomicity ⟨[], 7, none⟩ "t" "i" "q" 1).2.2.2.2.2.2
      [] (by rfl)

/-! ### Claim C4 -/

theorem find?_id_map_mark (l : List Todo) (id : String) :
    (l.map (fun task => if task.id == id then { task with completed := true } else task)).find?
        (fun task => task.id == id)
      = (l.find? (fun task => task.id == id)).map
          (fun task => if task.id == id then { task with completed := true } else task) := by
  rw [List.find?_map]
  have hcomp : ((fun task : Todo => task.id == id) ∘ fun task : Todo =>
      if task.id == id then { task with completed := true } else task)
      = (fun task : Todo => task.id == id) := by
    funext task
    by_cases h : task.id == id <;> simp [Function.comp, h]
  rw [hcomp]

/-- Claim C4: `completeById` on an already-completed record succeeds as a
no-op returning the existing record with no state (hence no disk) change,
independently of whether a disk write would succeed; and after any
successful `completeById` the returned record is completed, so a second
call on the same id returns the same record, changes nothing, and cannot
fail — even if the disk were now failing, since no write is attempted. -/
theorem c4_completeById_idempotent (st : TodoService) (id : String) :
    (∀ t, st.todos.find? (fun task => task.id == id) = some t → t.completed = true →
        ∀ writeOk, TodoService.completeById writeOk id st = (.ok t, st))
    ∧ (∀ r st1, TodoService.completeById true id st = (.ok r, st1) →
        r.completed = true
        ∧ ∀ writeOk, TodoService.completeById writeOk id st1 = (.ok r, st1)) := by
  have hnoop : ∀ (s : TodoService) (t : Todo),
      s.todos.find? (fun task => task.id == id) = some t → t.completed = true →
      ∀ writeOk, TodoService.completeById writeOk id s = (.ok t, s) := by
    intro s t hf hc w
    unfold TodoService.completeById
    rw [hf]
    simp [hc]
  refine ⟨hnoop st, ?_⟩
  intro r st1 h
  unfold TodoService.completeById at h
  cases hf : st.todos.find? (fun task => task.id == id) with
  | none => rw [hf] at h; simp at h
  | some found =>
    rw [hf] at h
    by_cases hc : found.completed
    · simp only [hc, if_true] at h
      have h1 : Except.ok found = Except.ok r := congrArg Prod.fst h
      have h2 : st = st1 := congrArg Prod.snd h
      obtain rfl : found = r := by injection h1
      subst h2
      exact ⟨hc, hnoop st _ hf hc⟩
    · have hfid := List.find?_some hf
      simp only [hc, if_false, TodoService.saveAtomically, if_true] at h
      rw [find?_id_map_mark, hf] at h
      simp only [Option.map_some', hfid, if_true] at h
      have h1 : Except.ok { found with completed := true } = Except.ok r :=
        congrArg Prod.fst h
      have h2 := congrArg Prod.snd h
      simp only at h2
      obtain rfl : { found with completed := true } = r := by injection h1
      refine ⟨rfl, ?_⟩
      subst h2
      apply hnoop
      · show (st.todos.map fun task =>
            if task.id == id then { task with completed := true } else task).find?
            (fun task => task.id == id) = some { found with completed := true }
        rw [find?_id_map_mark, hf]
        simp [hfid]
        intro hne
        exact absurd (by simpa using hfid) hne
      · rfl

/-- Claim C4 witness: on a concrete store, a second `completeById` call
after a successful completion returns the cached completed record and
changes nothing, even when the disk write would fail. -/
theorem c4_witness :
    ((⟨"todo-1", "b", true⟩ : Todo).completed = true
      ∧ TodoService.completeById false "todo-1"
          ⟨[⟨"todo-1", "b", true⟩], 2, some ⟨[⟨"todo-1", "b", true⟩], 2⟩⟩
        = (.ok ⟨"todo-1", "b", true⟩,
           ⟨[⟨"todo-1", "b", true⟩], 2, some ⟨[⟨"todo-1", "b", true⟩], 2⟩⟩))
    ∧ TodoService.completeById true "todo-1" ⟨[⟨"todo-1", "a", true⟩], 2, none⟩
        = (.ok ⟨"todo-1", "a", true⟩, ⟨[⟨"todo-1", "a", true⟩], 2, none⟩) := by
  constructor
  · have h := (c4_completeById_idempotent ⟨[⟨"todo-1", "b", false⟩], 2, none⟩ "todo-1").2
      ⟨"todo-1", "b", true⟩ ⟨[⟨"todo-1", "b", true⟩], 2, some ⟨[⟨"todo-1", "b", true⟩], 2⟩⟩
      (by rfl)
    exact ⟨h.1, h.2 false⟩
  · exact (c4_completeById_idempotent ⟨[⟨"todo-1", "a", true⟩], 2, none⟩ "todo-1").1
      ⟨"todo-1", "a", true⟩ (by rfl) (by rfl) true

/-! ### Claim C8 -/

/-- Claim C8: `deleteCompleted` (with a successful write) always
succeeds, returns exactly the records that were completed at call time,
leaves `nextId` untouched, leaves only incomplete records in `list()`,
persists the new sequence once when anything was removed, and is a
reported-success no-op when nothing was completed. -/
theorem c8_deleteCompleted (st : TodoService) :
    (TodoService.deleteCompleted true st).1
        = .ok (st.todos.filter (fun task => task.completed))
    ∧ ((TodoService.deleteCompleted true st).2).todos
        = st.todos.filter (fun task => !task.completed)
    ∧ ((TodoService.deleteCompleted true st).2).nextId = st.nextId
    ∧ (∀ u ∈ ((TodoService.deleteCompleted true st).2).todos, u.completed = false)
    ∧ ((st.todos.filter (fun task => task.completed)).isEmpty = false →
        ((TodoService.deleteCompleted true st).2).disk
          = some ⟨st.todos.filter (fun task => !task.completed), st.nextId⟩)
    ∧ ((st.todos.filter (fun task => task.completed)).isEmpty = true →
        (TodoService.deleteCompleted true st).2 = st) := by
  by_cases he : (st.todos.filter (fun task => task.completed)).isEmpty
  · have hnil : st.todos.filter (fun task => task.completed) = [] :=
      List.isEmpty_iff.mp he
    have hall : ∀ u ∈ st.todos, u.completed = false := by
      intro u hu
      have := List.filter_eq_nil_iff.mp hnil u hu
      simpa using this
    have hkeep : st.todos.filter (fun task => !task.completed) = st.todos := by
      apply List.filter_eq_self.mpr
      intro u hu
      simp [hall u hu]
    have hrun : TodoService.deleteCompleted true st = (.ok [], st) := by
      unfold TodoService.deleteCompleted
      rw [if_pos he]
    rw [hrun]
    refine ⟨by rw [hnil], by rw [hkeep], rfl, ?_, ?_, fun _ => rfl⟩
    · intro u hu
      exact hall u hu
    · intro hcontra
      rw [he] at hcontra
      cases hcontra
  · have hrun : TodoService.deleteCompleted true st =
        (.ok (st.todos.filter (fun task => task.completed)),
         { st with todos := st.todos.filter (fun task => !task.completed),
                   disk := some ⟨st.todos.filter (fun task => !task.completed),
                                 st.nextId⟩ }) := by
      unfold TodoService.deleteCompleted
      rw [if_neg he]
      simp [TodoService.saveAtomically]
    rw [hrun]
    refine ⟨rfl, rfl, rfl, ?_, fun _ => rfl, ?_⟩
    · intro u hu
      have := List.of_mem_filter hu
      simpa using this
    · intro hcontra
      exact absurd hcontra he

/-- Claim C8 witness: `deleteCompleted` on a concrete store with one
completed and one incomplete todo removes exactly the completed one and
records the new sequence on disk. -/
theorem c8_witness :
    ((TodoService.deleteCompleted true
        ⟨[⟨"todo-1", "a", true⟩, ⟨"todo-2", "b", false⟩], 3, none⟩).2).disk
      = some ⟨[⟨"todo-2", "b", false⟩], 3⟩ := by
  have h := (c8_deleteCompleted
    ⟨[⟨"todo-1", "a", true⟩, ⟨"todo-2", "b", false⟩], 3, none⟩).2.2.2.2.1 (by rfl)
  simpa using h

/-! ### Claim C7 -/

theorem find?_of_forall_false {α : Type} (p : α → Bool) :
    ∀ (l1 : List α) (a : α) (l2 : List α), (∀ x ∈ l1, p x = false) → p a = true →
      (l1 ++ a :: l2).find? p = some a := by
  intro l1
  induction l1 with
  | nil =>
    intro a l2 _ ha
    rw [List.nil_append]
    exact List.find?_cons_of_pos _ ha
  | cons x xs ih =>
    intro a l2 hall ha
    have hx : p x = false := hall x (by simp)
    rw [List.cons_append, List.find?_cons_of_neg _ (by simp [hx])]
    exact ih a l2 (fun y hy => hall y (by simp [hy])) ha

/-- Claim C7: deleting a nonexistent id fails with `NotFound` and leaves
the state unchanged; a successful `deleteById` leaves no record carrying
the deleted id; and when the record with the id sits at an explicit
position in a store with unique ids, `deleteById` removes exactly that
record (all others keep their relative order), persists the new sequence,
and returns the removed record's pre-deletion value. -/
theorem c7_deleteById (writeOk : Bool) (id : String) (st : TodoService) :
    (st.todos.find? (fun task => task.id == id) = none →
        TodoService.deleteById writeOk id st = (.error .notFound, st))
    ∧ (∀ u ∈ ((TodoService.deleteById true id st).2).todos, u.id ≠ id)
    ∧ (∀ t l1 l2, st.todos = l1 ++ t :: l2 → t.id = id → (∀ u ∈ l1, u.id ≠ id) →
        (st.todos.map Todo.id).Nodup →
        TodoService.deleteById true id st =
          (.ok t, { st with todos := l1 ++ l2, disk := some ⟨l1 ++ l2, st.nextId⟩ })) := by
  refine ⟨?_, ?_, ?_⟩
  · intro hf
    unfold TodoService.deleteById
    rw [hf]
  · intro u hu huid
    unfold TodoService.deleteById at hu
    cases hf : st.todos.find? (fun task => task.id == id) with
    | none =>
      rw [hf] at hu
      have := List.find?_eq_none.mp hf u hu
      simp [huid] at this
    | some t =>
      rw [hf] at hu
      simp only [TodoService.saveAtomically, if_true] at hu
      have := List.of_mem_filter hu
      simp [huid] at this
  · intro t l1 l2 hsplit htid hl1 hnd
    have hft : st.todos.find? (fun task => task.id == id) = some t := by
      rw [hsplit]
      exact find?_of_forall_false _ l1 t l2
        (fun x hx => by simp [hl1 x hx]) (by simp [htid])
    have hl2 : ∀ u ∈ l2, u.id ≠ id := by
      intro u hu huid
      rw [hsplit, List.map_append, List.map_cons] at hnd
      have hnotin := (List.nodup_append.mp hnd).2.1
      rw [List.nodup_cons] at hnotin
      exact hnotin.1 (by rw [htid, ← huid]; exact List.mem_map_of_mem _ hu)
    have hfilter : st.todos.filter (fun task => !(task.id == id)) = l1 ++ l2 := by
      rw [hsplit, List.filter_append]
      congr 1
      · apply List.filter_eq_self.mpr
        intro u hu
        simp [hl1 u hu]
      · have hpt : (!(t.id == id)) = false := by simp [htid]
        rw [List.filter_cons, hpt]
        simp only [Bool.false_eq_true, if_false]
        apply List.filter_eq_self.mpr
        intro u hu
        simp [hl2 u hu]
    unfold TodoService.deleteById
    rw [hft]
    simp only [TodoService.saveAtomically, if_true]
    rw [hfilter]

/-- Claim C7 witness: on a concrete two-todo store, deleting the first
todo by id removes exactly it, deleting an absent id fails and leaves the
state unchanged, and a surviving record does not carry the deleted id. -/
theorem c7_witness :
    TodoService.deleteById true "zzz"
        ⟨[⟨"todo-1", "a", false⟩, ⟨"todo-2", "b", true⟩], 3, none⟩
      = (.error .notFound, ⟨[⟨"todo-1", "a", false⟩, ⟨"todo-2", "b", true⟩], 3, none⟩)
    ∧ (⟨"todo-2", "b", true⟩ : Todo).id ≠ "todo-1"
    ∧ TodoService.deleteById true "todo-1"
        ⟨[⟨"todo-1", "a", false⟩, ⟨"todo-2", "b", true⟩], 3, none⟩
      = (.ok ⟨"todo-1", "a", false⟩,
         ⟨[⟨"todo-2", "b", true⟩], 3, some ⟨[⟨"todo-2", "b", true⟩], 3⟩⟩) := by
  refine ⟨?_, ?_, ?_⟩
  · exact (c7_deleteById true "zzz"
      ⟨[⟨"todo-1", "a", false⟩, ⟨"todo-2", "b", true⟩], 3, none⟩).1 (by rfl)
  · exact (c7_deleteById true "todo-1"
      ⟨[⟨"todo-1", "a", false⟩, ⟨"todo-2", "b", true⟩], 3, none⟩).2.1
      ⟨"todo-2", "b", true⟩ (by decide)
  · have h := (c7_deleteById true "todo-1"
      ⟨[⟨"todo-1", "a", false⟩, ⟨"todo-2", "b", true⟩], 3, none⟩).2.2
      ⟨"todo-1", "a", false⟩ [] [⟨"todo-2", "b", true⟩] rfl rfl (by simp) (by decide)
    simpa using h

/-! ### Claim C6 -/

/-- Claim C6: `completeByTitle` fails with `NotFound` and leaves the
state unchanged when no record is simultaneously incomplete and a
case-folded substring match — in particular whenever every matching
record is already completed, so completed records are never candidates;
and when the first incomplete matching record sits at an explicit
position in a store with unique ids, the call completes exactly that
record and returns it. -/
theorem c6_completeByTitle (writeOk : Bool) (q : String) (st : TodoService) :
    (st.todos.find? (TodoService.titleMatch q) = none →
        TodoService.completeByTitle writeOk q st = (.error .notFound, st))
    ∧ ((∀ t ∈ st.todos,
          TodoService.jsIncludes (TodoService.jsToLower t.title)
            (TodoService.jsToLower q) = true → t.completed = true) →
        TodoService.completeByTitle writeOk q st = (.error .notFound, st))
    ∧ (∀ m l1 l2, st.todos = l1 ++ m :: l2 →
        (∀ u ∈ l1, TodoService.titleMatch q u = false) →
        TodoService.titleMatch q m = true →
        (st.todos.map Todo.id).Nodup →
        TodoService.completeByTitle true q st =
          (.ok { m with completed := true },
           { st with todos := l1 ++ { m with completed := true } :: l2,
                     disk := some ⟨l1 ++ { m with completed := true } :: l2,
                                   st.nextId⟩ })) := by
  have hnone : st.todos.find? (TodoService.titleMatch q) = none →
      TodoService.completeByTitle writeOk q st = (.error .notFound, st) := by
    intro hf
    unfold TodoService.completeByTitle
    rw [hf]
  refine ⟨hnone, ?_, ?_⟩
  · intro hall
    apply hnone
    apply List.find?_eq_none.mpr
    intro x hx
    cases hinc : TodoService.jsIncludes (TodoService.jsToLower x.title)
        (TodoService.jsToLower q) with
    | false => simp [TodoService.titleMatch, hinc]
    | true =>
      have hcx := hall x hx hinc
      simp [TodoService.titleMatch, hinc, hcx]
  · intro m l1 l2 hsplit hl1 hm hnd
    have hfm : st.todos.find? (TodoService.titleMatch q) = some m := by
      rw [hsplit]
      exact find?_of_forall_false _ l1 m l2 hl1 hm
    have hids1 : ∀ u ∈ l1, u.id ≠ m.id := by
      intro u hu he
      rw [hsplit, List.map_append, List.map_cons] at hnd
      have hdisj := (List.nodup_append.mp hnd).2.2
      exact hdisj (List.mem_map_of_mem _ hu) (by rw [he]; exact List.mem_cons_self _ _)
    have hids2 : ∀ u ∈ l2, u.id ≠ m.id := by
      intro u hu he
      rw [hsplit, List.map_append, List.map_cons] at hnd
      have hnotin := (List.nodup_append.mp hnd).2.1
      rw [List.nodup_cons] at hnotin
      exact hnotin.1 (by rw [← he]; exact List.mem_map_of_mem _ hu)
    have hmap : st.todos.map (fun task =>
        if task.id == m.id then { task with completed := true } else task)
        = l1 ++ { m with completed := true } :: l2 := by
      rw [hsplit, List.map_append, List.map_cons]
      congr 1
      · calc l1.map (fun task =>
              if task.id == m.id then { task with completed := true } else task)
            = l1.map (fun u => u) :=
              List.map_congr_left (by intro u hu; simp [hids1 u hu])
          _ = l1 := by simp
      · congr 1
        · simp
        · calc l2.map (fun task =>
                if task.id == m.id then { task with completed := true } else task)
              = l2.map (fun u => u) :=
                List.map_congr_left (by intro u hu; simp [hids2 u hu])
            _ = l2 := by simp
    have hfupd : (l1 ++ { m with completed := true } :: l2).find?
        (fun task => task.id == m.id) = some { m with completed := true } := by
      apply find?_of_forall_false
      · intro x hx
        simp [hids1 x hx]
      · simp
    unfold TodoService.completeByTitle
    rw [hfm]
    simp only [TodoService.saveAtomically, if_true]
    rw [hmap, hfupd]

/-- Claim C6 witness: with two same-titled todos of which the first is
already completed, a title query selects and completes the second one. -/
theorem c6_witness :
    TodoService.completeByTitle true "zzz"
        ⟨[⟨"todo-1", "alpha", true⟩, ⟨"todo-2", "alpha", false⟩], 3, none⟩
      = (.error .notFound,
         ⟨[⟨"todo-1", "alpha", true⟩, ⟨"todo-2", "alpha", false⟩], 3, none⟩)
    ∧ TodoService.completeByTitle true "alpha"
        ⟨[⟨"todo-1", "alpha", true⟩], 2, none⟩
      = (.error .notFound, ⟨[⟨"todo-1", "alpha", true⟩], 2, none⟩)
    ∧ TodoService.completeByTitle true "alpha"
        ⟨[⟨"todo-1", "alpha", true⟩, ⟨"todo-2", "alpha", false⟩], 3, none⟩
      = (.ok ⟨"todo-2", "alpha", true⟩,
         ⟨[⟨"todo-1", "alpha", true⟩, ⟨"todo-2", "alpha", true⟩], 3,
          some ⟨[⟨"todo-1", "alpha", true⟩, ⟨"todo-2", "alpha", true⟩], 3⟩⟩) := by
  refine ⟨?_, ?_, ?_⟩
  · exact (c6_completeByTitle true "zzz"
      ⟨[⟨"todo-1", "alpha", true⟩, ⟨"todo-2", "alpha", false⟩], 3, none⟩).1 (by decide)
  · exact (c6_completeByTitle true "alpha"
      ⟨[⟨"todo-1", "alpha", true⟩], 2, none⟩).2.1 (by decide)
  · have h := (c6_completeByTitle true "alpha"
      ⟨[⟨"todo-1", "alpha", true⟩, ⟨"todo-2", "alpha", false⟩], 3, none⟩).2.2
      ⟨"todo-2", "alpha", false⟩ [⟨"todo-1", "alpha", true⟩] []
      rfl (by decide) (by decide) (by decide)
    simpa using h

/-! ### Claim C5 -/

theorem saveAtomically_true (newTodos : List Todo) (st : TodoService) :
    TodoService.saveAtomically true newTodos st =
      (.ok (), { st with todos := newTodos, disk := some ⟨newTodos, st.nextId⟩ }) := rfl

theorem saveAtomically_false (newTodos : List Todo) (st : TodoService) :
    TodoService.saveAtomically false newTodos st = (.error .writeFailed, st) := rfl

theorem get?_eq_some_get {α : Type} (l : List α) (k : Nat) (hk : k < l.length) :
    l.get? k = some (l.get ⟨k, hk⟩) := by
  rw [List.get?_eq_getElem?, List.getElem?_eq_getElem hk]
  simp

theorem find?_id_of_nodup (l : List Todo) (hnd : (l.map Todo.id).Nodup) :
    ∀ (k : Nat) (hk : k < l.length),
      l.find? (fun task => task.id == (l.get ⟨k, hk⟩).id) = some (l.get ⟨k, hk⟩) := by
  induction l with
  | nil => intro k hk; simp at hk
  | cons x xs ih =>
    rw [List.map_cons, List.nodup_cons] at hnd
    intro k hk
    cases k with
    | zero => exact List.find?_cons_of_pos _ (by simp)
    | succ k =>
      have hk' : k < xs.length := by simpa using hk
      have hget : (x :: xs).get ⟨k + 1, hk⟩ = xs.get ⟨k, hk'⟩ := rfl
      rw [hget]
      have hidne : x.id ≠ (xs.get ⟨k, hk'⟩).id := by
        intro he
        exact hnd.1 (by rw [he]; exact List.mem_map_of_mem _ (xs.get_mem k hk'))
      rw [List.find?_cons_of_neg _ (by simpa [List.get_eq_getElem] using hidne)]
      exact ih hnd.2 k hk'

theorem nodup_ids_get_ne (l : List Todo) (hnd : (l.map Todo.id).Nodup)
    (a b : Nat) (ha : a < l.length) (hb : b < l.length) (hab : a ≠ b) :
    ((l.get ⟨a, ha⟩).id == (l.get ⟨b, hb⟩).id) = false := by
  simp only [beq_eq_false_iff_ne, ne_eq]
  intro he
  apply hab
  have ha2 : a < (l.map Todo.id).length := by simpa using ha
  have hb2 : b < (l.map Todo.id).length := by simpa using hb
  refine List.getElem?_inj ha2 hnd (j := b) ?_
  rw [List.getElem?_eq_getElem ha2, List.getElem?_eq_getElem hb2]
  simp only [List.getElem_map]
  simp only [List.get_eq_getElem] at he
  rw [he]

theorem map_mark_eq_mapIdx (l : List Todo) (hnd : (l.map Todo.id).Nodup)
    (k : Nat) (hk : k < l.length) :
    l.map (fun task => if task.id == (l.get ⟨k, hk⟩).id
        then { task with completed := true } else task)
      = l.mapIdx (fun j task => if (j : Int) == (k : Int)
        then { task with completed := true } else task) := by
  apply List.ext_get
  · simp [List.length_mapIdx]
  · intro n h1 h2
    have hn : n < l.length := by simpa using h1
    simp only [List.get_eq_getElem, List.getElem_map, List.getElem_mapIdx]
    by_cases hnk : n = k
    · subst hnk
      have : (l[n].id == (l.get ⟨n, hk⟩).id) = true := by
        simp [List.get_eq_getElem]
      simp [this]
    · have hne := nodup_ids_get_ne l hnd n k hn hk hnk
      simp only [List.get_eq_getElem] at hne
      have hne2 : ((n : Int) == (k : Int)) = false := by
        simp [hnk]
      simp [hne, hne2]

/-- Claim C5: `completeByIndex(i)` fails with `InvalidIndex` and leaves
the state unchanged exactly when `i` lies outside `[1, len(list())]`;
for an in-range index on a store with unique ids it behaves exactly like
`completeById` on the record at that 1-based position (in particular it
is idempotent on an already-completed entry), additionally returning the
resolved index. -/
theorem c5_completeByIndex (writeOk : Bool) (i : Int) (st : TodoService) :
    ((i < 1 ∨ (st.todos.length : Int) < i) →
        TodoService.completeByIndex writeOk i st = (.error .invalidIndex, st))
    ∧ ((TodoService.completeByIndex writeOk i st).1 = .error .invalidIndex
        ↔ (i < 1 ∨ (st.todos.length : Int) < i))
    ∧ (1 ≤ i → i ≤ (st.todos.length : Int) → (st.todos.map Todo.id).Nodup →
        TodoService.completeByIndex writeOk i st =
          ((TodoService.completeById writeOk
              (st.todos.getD (i - 1).toNat default).id st).1.map (fun t => (t, i)),
           (TodoService.completeById writeOk
              (st.todos.getD (i - 1).toNat default).id st).2)) := by
  have hout : (i < 1 ∨ (st.todos.length : Int) < i) →
      TodoService.completeByIndex writeOk i st = (.error .invalidIndex, st) := by
    intro hg
    unfold TodoService.completeByIndex
    rw [if_pos hg]
  refine ⟨hout, ⟨?_, fun hg => by rw [hout hg]⟩, ?_⟩
  · intro hres
    by_contra hg
    push_neg at hg
    obtain ⟨hg1, hg2⟩ := hg
    have hk : (i - 1).toNat < st.todos.length := by omega
    unfold TodoService.completeByIndex at hres
    rw [if_neg (by omega), get?_eq_some_get _ _ hk] at hres
    by_cases hc : (st.todos.get ⟨(i - 1).toNat, hk⟩).completed
    · simp only [hc] at hres
      simp at hres
    · cases writeOk with
      | false =>
        simp only [hc, saveAtomically_false] at hres
        simp at hres
      | true =>
        have hk2 : (i - 1).toNat < (st.todos.mapIdx (fun j task =>
            if (j : Int) == i - 1 then { task with completed := true }
            else task)).length := by
          simpa [List.length_mapIdx] using hk
        simp only [hc, saveAtomically_true] at hres
        rw [get?_eq_some_get _ _ hk2] at hres
        simp at hres
  · intro h1 h2 hnd
    have hk : (i - 1).toNat < st.todos.length := by omega
    have hi : ((i - 1).toNat : Int) = i - 1 := by omega
    have hgetD : st.todos.getD (i - 1).toNat default
        = st.todos.get ⟨(i - 1).toNat, hk⟩ := by
      rw [List.getD_eq_getElem?_getD, List.getElem?_eq_getElem hk]
      simp [List.get_eq_getElem]
    have hfind := find?_id_of_nodup st.todos hnd (i - 1).toNat hk
    rw [hgetD]
    unfold TodoService.completeByIndex TodoService.completeById
    rw [if_neg (by omega), get?_eq_some_get _ _ hk, hfind]
    by_cases hc : (st.todos.get ⟨(i - 1).toNat, hk⟩).completed
    · simp only [hc, eq_self_iff_true, if_true, Except.map]
    · cases writeOk with
      | false =>
        simp only [hc, Bool.false_eq_true, if_false, saveAtomically_false, Except.map]
      | true =>
        have hmark := map_mark_eq_mapIdx st.todos hnd (i - 1).toNat hk
        rw [hi] at hmark
        have hkM : (i - 1).toNat < (st.todos.map (fun task =>
            if task.id == (st.todos.get ⟨(i - 1).toNat, hk⟩).id
            then { task with completed := true } else task)).length := by
          simpa using hk
        have hM : (st.todos.map (fun task =>
            if task.id == (st.todos.get ⟨(i - 1).toNat, hk⟩).id
            then { task with completed := true } else task)).get? (i - 1).toNat
            = some { st.todos.get ⟨(i - 1).toNat, hk⟩ with completed := true } := by
          rw [get?_eq_some_get _ _ hkM]
          congr 1
          simp [List.get_eq_getElem, List.getElem_map]
        have hF : (st.todos.map (fun task =>
            if task.id == (st.todos.get ⟨(i - 1).toNat, hk⟩).id
            then { task with completed := true } else task)).find?
            (fun task => task.id == (st.todos.get ⟨(i - 1).toNat, hk⟩).id)
            = some { st.todos.get ⟨(i - 1).toNat, hk⟩ with completed := true } := by
          rw [find?_id_map_mark, hfind]
          simp
        simp only [hc, Bool.false_eq_true, if_false, saveAtomically_true]
        rw [← hmark, hM, hF]
        simp only [Except.map]

/-- Claim C5 witness: on a concrete one-todo store, index 1 resolves to
the first record and agrees with `completeById` on its id, while index 5
is rejected with `InvalidIndex` and no state change. -/
theorem c5_witness :
    TodoService.completeByIndex true 1 ⟨[⟨"todo-1", "a", false⟩], 2, none⟩
      = ((TodoService.completeById true "todo-1"
            ⟨[⟨"todo-1", "a", false⟩], 2, none⟩).1.map (fun t => (t, 1)),
         (TodoService.completeById true "todo-1"
            ⟨[⟨"todo-1", "a", false⟩], 2, none⟩).2)
    ∧ TodoService.completeByIndex true 5 ⟨[⟨"todo-1", "a", false⟩], 2, none⟩
      = (.error .invalidIndex, ⟨[⟨"todo-1", "a", false⟩], 2, none⟩) := by
  constructor
  · have h := (c5_completeByIndex true 1 ⟨[⟨"todo-1", "a", false⟩], 2, none⟩).2.2
      (by decide) (by decide) (by decide)
    simpa using h
  · exact (c5_completeByIndex true 5 ⟨[⟨"todo-1", "a", false⟩], 2, none⟩).1
      (by decide)

end TodoModel
